import Mathlib

/-!
Shallow embedding of the selector-matching core of the `tl` repository:
`src/queryselector/selector.rs` (the `Selector` enum, `Selector::matches`,
`check_attribute`) and `src/parser/options.rs` (`ParserOptions`).

Bytes are modelled as `List Nat` (each entry a byte value), decoded strings
as `List Nat` of Unicode codepoints.  The tree context (the `Parser` arena)
is a `List Node`; a node handle is an index into that list.  The only loop
in the source, the ancestor walk of the `Descendant` combinator, is modelled
with an explicit fuel parameter: a `none` result means the loop has not
finished within that many iterations (the Rust code has no bound, so the
real loop diverges exactly when every fuel yields `none`).
-/

namespace TL

/-- True iff the byte is a UTF-8 continuation byte (`0x80..=0xBF`). -/
def isCont (b : Nat) : Bool :=
  decide (0x80 ≤ b) && decide (b ≤ 0xBF)

/-- Modelled from the spec: valid second byte of a three-byte UTF-8 sequence
with lead byte `b` (Rust `core::str` validation ranges, used by
`String::from_utf8_lossy`, which is outside `src/`). -/
def cont3ok (b c : Nat) : Bool :=
  if b == 0xE0 then decide (0xA0 ≤ c) && decide (c ≤ 0xBF)
  else if b == 0xED then decide (0x80 ≤ c) && decide (c ≤ 0x9F)
  else isCont c

/-- Modelled from the spec: valid second byte of a four-byte UTF-8 sequence
with lead byte `b`. -/
def cont4ok (b c : Nat) : Bool :=
  if b == 0xF0 then decide (0x90 ≤ c) && decide (c ≤ 0xBF)
  else if b == 0xF4 then decide (0x80 ≤ c) && decide (c ≤ 0x8F)
  else isCont c

/-- Modelled from the spec: lossy UTF-8 decoding of raw bytes into a list of
codepoints, with maximal-subpart substitution of `U+FFFD` (the behaviour of
Rust `String::from_utf8_lossy` and `Bytes::as_utf8_str`, both outside
`src/`; the spec mandates that both sides of an attribute comparison are
decoded this way). -/
def lossyDecode : List Nat → List Nat
  | [] => []
  | b :: rest =>
    if b < 0x80 then b :: lossyDecode rest
    else if decide (0xC2 ≤ b) && decide (b ≤ 0xDF) then
      match rest with
      | [] => [0xFFFD]
      | c1 :: rest1 =>
        if isCont c1 then ((b % 32) * 64 + c1 % 64) :: lossyDecode rest1
        else 0xFFFD :: lossyDecode (c1 :: rest1)
    else if decide (0xE0 ≤ b) && decide (b ≤ 0xEF) then
      match rest with
      | [] => [0xFFFD]
      | c1 :: rest1 =>
        if cont3ok b c1 then
          match rest1 with
          | [] => [0xFFFD]
          | c2 :: rest2 =>
            if isCont c2 then
              ((b % 16) * 4096 + (c1 % 64) * 64 + c2 % 64) :: lossyDecode rest2
            else 0xFFFD :: lossyDecode (c2 :: rest2)
        else 0xFFFD :: lossyDecode (c1 :: rest1)
    else if decide (0xF0 ≤ b) && decide (b ≤ 0xF4) then
      match rest with
      | [] => [0xFFFD]
      | c1 :: rest1 =>
        if cont4ok b c1 then
          match rest1 with
          | [] => [0xFFFD]
          | c2 :: rest2 =>
            if isCont c2 then
              match rest2 with
              | [] => [0xFFFD]
              | c3 :: rest3 =>
                if isCont c3 then
                  ((b % 8) * 262144 + (c1 % 64) * 4096 + (c2 % 64) * 64 + c3 % 64)
                    :: lossyDecode rest3
                else 0xFFFD :: lossyDecode (c3 :: rest3)
            else 0xFFFD :: lossyDecode (c2 :: rest2)
        else 0xFFFD :: lossyDecode (c1 :: rest1)
    else 0xFFFD :: lossyDecode rest

/-- Modelled from the spec: Unicode whitespace codepoints recognised by Rust
`str::split_whitespace` (`char::is_whitespace`, outside `src/`). -/
def isWSChar (c : Nat) : Bool :=
  c ∈ [0x09, 0x0A, 0x0B, 0x0C, 0x0D, 0x20, 0x85, 0xA0, 0x1680,
       0x2000, 0x2001, 0x2002, 0x2003, 0x2004, 0x2005, 0x2006, 0x2007,
       0x2008, 0x2009, 0x200A, 0x2028, 0x2029, 0x202F, 0x205F, 0x3000]

/-- Modelled from the spec: split a codepoint string on whitespace, dropping
empty tokens (Rust `str::split_whitespace`). `acc` holds the current token
reversed. -/
def splitWSAux : List Nat → List Nat → List (List Nat)
  | [], acc => if acc.isEmpty then [] else [acc.reverse]
  | c :: rest, acc =>
    if isWSChar c then
      if acc.isEmpty then splitWSAux rest []
      else acc.reverse :: splitWSAux rest []
    else splitWSAux rest (c :: acc)

/-- Modelled from the spec: `str::split_whitespace` as a list of tokens. -/
def splitWS (l : List Nat) : List (List Nat) :=
  splitWSAux l []

/-- Substring containment on codepoint strings: Rust `str::contains` with a
string pattern (`b` occurs contiguously inside `a`). -/
def containsSub (a b : List Nat) : Bool :=
  a.tails.any (fun t => b.isPrefixOf t)

/-- Modelled from the spec: the attribute map of a tag, the interface the
matcher consumes (`Attributes` lives outside `src/`).  `raw` is an
association list from attribute-name bytes to an optional value
(`none` = attribute present without a value); `id` and `classAttr` are the
cached `id` and `class` attributes. -/
structure Attributes where
  raw : List (List Nat × Option (List Nat))
  id : Option (List Nat)
  classAttr : Option (List Nat)

/-- Modelled from the spec: `Attributes::get`, lookup by attribute name;
outer `none` = absent, `some none` = present without value. -/
def Attributes.get (a : Attributes) (name : List Nat) : Option (Option (List Nat)) :=
  (a.raw.find? (fun p => p.1 == name)).map (fun p => p.2)

/-- Modelled from the spec: a byte is ASCII whitespace (for the class list). -/
def isASCIIWSByte (b : Nat) : Bool :=
  b ∈ [0x09, 0x0A, 0x0C, 0x0D, 0x20]

/-- Modelled from the spec: split the raw class bytes on ASCII whitespace. -/
def splitClassAux : List Nat → List Nat → List (List Nat)
  | [], acc => if acc.isEmpty then [] else [acc.reverse]
  | c :: rest, acc =>
    if isASCIIWSByte c then
      if acc.isEmpty then splitClassAux rest []
      else acc.reverse :: splitClassAux rest []
    else splitClassAux rest (c :: acc)

/-- Modelled from the spec: `Attributes::is_class_member` — the `class`
attribute, read as a whitespace-separated token list, contains the given
bytes as an exact token. -/
def Attributes.isClassMember (a : Attributes) (c : List Nat) : Bool :=
  match a.classAttr with
  | none => false
  | some cls => (splitClassAux cls []).any (fun t => t == c)

/-- A tag node: name bytes, attributes, and the optional parent handle
(an index into the arena). -/
structure HTMLTag where
  name : List Nat
  attributes : Attributes
  parent : Option Nat

/-- A tree node: a tag, or a non-tag node (raw text / comment). -/
inductive Node where
  | tag : HTMLTag → Node
  | raw : List Nat → Node

/-- Source `Node::as_tag`: `some` for tag nodes, `none` otherwise. -/
def Node.asTag : Node → Option HTMLTag
  | .tag t => some t
  | .raw _ => none

/-- The selector AST of `src/queryselector/selector.rs` (byte payloads). -/
inductive Selector where
  | tag : List Nat → Selector
  | id : List Nat → Selector
  | cls : List Nat → Selector
  | all : Selector
  | and : Selector → Selector → Selector
  | or : Selector → Selector → Selector
  | descendant : Selector → Selector → Selector
  | parent : Selector → Selector → Selector
  | attribute : List Nat → Selector
  | attributeValue : List Nat → List Nat → Selector
  | attributeValueWhitespacedContains : List Nat → List Nat → Selector
  | attributeValueStartsWith : List Nat → List Nat → Selector
  | attributeValueEndsWith : List Nat → List Nat → Selector
  | attributeValueSubstring : List Nat → List Nat → Selector

/-- Source `check_attribute` from `selector.rs`: resolve the node as a tag, fetch
the named attribute, flatten presence/value, lossily decode both the stored
bytes and the selector literal, and apply the string relation. -/
def check_attribute (n : Node) (attrName : List Nat) (value : List Nat)
    (callback : List Nat → List Nat → Bool) : Bool :=
  match n.asTag with
  | none => false
  | some t =>
    match (t.attributes.get attrName).join with
    | none => false
    | some attr => callback (lossyDecode attr) (lossyDecode value)

/-- Resolve a tag's parent handle through the arena
(`tag.parent().get(parser)` / `t._parent?.get(parser)`). -/
def parentResolve (ctx : List Node) (t : HTMLTag) : Option Node :=
  t.parent.bind (fun h => ctx.get? h)

/-- One step of the ancestor walk:
`curr.as_tag().and_then(|t| t._parent?.get(parser))`. -/
def parentStep (ctx : List Node) (n : Node) : Option Node :=
  n.asTag.bind (parentResolve ctx)

/-- The `while let` ancestor loop of the `Descendant` arm, with fuel.
`p` is the (fueled) evaluation of the ancestor sub-selector; `none` means
either the loop has not finished within the fuel or `p` itself ran out. -/
def walkF (step : Node → Option Node) (p : Node → Option Bool) : Nat → Node → Option Bool
  | 0, _ => none
  | k + 1, curr =>
    match step curr with
    | none => some false
    | some anc =>
      match p anc with
      | none => none
      | some true => some true
      | some false => walkF step p k anc

/-- Source `Selector::matches`, fueled.  The fuel bounds only the `Descendant`
ancestor loop (each loop gets the full `fuel`); everything else is the
structural recursion of the source.  `none` = the evaluation is still
inside an ancestor loop after `fuel` iterations. -/
def matchesF (ctx : List Node) (fuel : Nat) : Selector → Node → Option Bool
  | .tag t, n =>
    some (match n.asTag with
      | none => false
      | some tg => tg.name == t)
  | .id i, n =>
    some (match n.asTag with
      | none => false
      | some tg => tg.attributes.id == some i)
  | .cls c, n =>
    some (match n.asTag with
      | none => false
      | some tg => tg.attributes.isClassMember c)
  | .and a b, n =>
    match matchesF ctx fuel a n with
    | none => none
    | some false => some false
    | some true => matchesF ctx fuel b n
  | .or a b, n =>
    match matchesF ctx fuel a n with
    | none => none
    | some true => some true
    | some false => matchesF ctx fuel b n
  | .all, _ => some true
  | .parent a b, n =>
    match n.asTag with
    | none => some false
    | some tg =>
      match parentResolve ctx tg with
      | none => some false
      | some pr =>
        match matchesF ctx fuel a pr with
        | none => none
        | some false => some false
        | some true => matchesF ctx fuel b n
  | .descendant a b, n =>
    match matchesF ctx fuel b n with
    | none => none
    | some false => some false
    | some true => walkF (parentStep ctx) (fun m => matchesF ctx fuel a m) fuel n
  | .attribute attr, n =>
    some (match n.asTag with
      | none => false
      | some tg => (tg.attributes.get attr).isSome)
  | .attributeValue attr v, n =>
    some (check_attribute n attr v (fun a b => a == b))
  | .attributeValueEndsWith attr v, n =>
    some (check_attribute n attr v (fun a b => b.isSuffixOf a))
  | .attributeValueStartsWith attr v, n =>
    some (check_attribute n attr v (fun a b => b.isPrefixOf a))
  | .attributeValueSubstring attr v, n =>
    some (check_attribute n attr v (fun a b => containsSub a b))
  | .attributeValueWhitespacedContains attr v, n =>
    some (check_attribute n attr v (fun a b => (splitWS a).any (fun x => x == b)))

/-- Iterated parent steps: `parentIter ctx k n` is the `k`-th strict
ancestor of `n` when the chain is that long, `none` when the chain dies
before `k` steps. -/
def parentIter (ctx : List Node) : Nat → Node → Option Node
  | 0, n => some n
  | k + 1, n => (parentStep ctx n).bind (parentIter ctx k)

/-- Executable acyclicity of the arena: from every arena node the parent
chain dies within `ctx.length` steps. -/
def acyclicB (ctx : List Node) : Bool :=
  ctx.all (fun n => (parentIter ctx ctx.length n).isNone)

/-- Once the parent chain has died within `k` steps it stays dead at `k+1`. -/
theorem parentIter_none_succ (ctx : List Node) :
    ∀ k n, parentIter ctx k n = none → parentIter ctx (k + 1) n = none := by
  intro k
  induction k with
  | zero =>
    intro n h
    simp [parentIter] at h
  | succ k ih =>
    intro n h
    simp only [parentIter] at h ⊢
    cases hs : parentStep ctx n with
    | none => simp
    | some m =>
      rw [hs] at h
      simp only [Option.some_bind] at h ⊢
      exact ih m h

/-- Chain death is monotone in the step bound. -/
theorem parentIter_none_mono (ctx : List Node) {k j : Nat} (hkj : k ≤ j) :
    ∀ n, parentIter ctx k n = none → parentIter ctx j n = none := by
  induction j with
  | zero =>
    intro n h
    have hk0 : k = 0 := Nat.le_zero.mp hkj
    rw [hk0] at h
    exact h
  | succ j ih =>
    intro n h
    rcases Nat.le_succ_iff.mp hkj with hle | heq
    · exact parentIter_none_succ ctx j n (ih hle n h)
    · rw [heq] at h
      exact h

/-- A resolved parent is a node of the arena. -/
theorem mem_of_parentStep (ctx : List Node) (n m : Node)
    (h : parentStep ctx n = some m) : m ∈ ctx := by
  unfold parentStep at h
  cases ht : n.asTag with
  | none => rw [ht] at h; simp at h
  | some t =>
    rw [ht] at h
    simp only [Option.some_bind] at h
    unfold parentResolve at h
    cases hp : t.parent with
    | none => rw [hp] at h; simp at h
    | some hdl =>
      rw [hp] at h
      simp only [Option.some_bind] at h
      exact List.get?_mem h

/-- In an acyclic arena, every parent chain (from any start node) dies
within `ctx.length + 1` steps. -/
theorem chainDies (ctx : List Node) (h : acyclicB ctx = true) :
    ∀ n, parentIter ctx (ctx.length + 1) n = none := by
  intro n
  show (parentStep ctx n).bind (parentIter ctx ctx.length) = none
  cases hs : parentStep ctx n with
  | none => rfl
  | some m =>
    have hm : m ∈ ctx := mem_of_parentStep ctx n m hs
    have hall := List.all_eq_true.mp h m hm
    simp only [Option.isNone_iff_eq_none] at hall
    simp [hall]

/-- Under a dead chain and a total ancestor predicate, the fueled walk
completes. -/
theorem walkF_isSome (ctx : List Node) (p : Node → Option Bool)
    (hp : ∀ m, (p m).isSome) :
    ∀ f n, parentIter ctx f n = none → (walkF (parentStep ctx) p f n).isSome := by
  intro f
  induction f with
  | zero =>
    intro n h
    simp [parentIter] at h
  | succ k ih =>
    intro n h
    simp only [walkF]
    split
    · rfl
    · next m hs =>
      have hm : parentIter ctx k m = none := by
        simp only [parentIter, hs, Option.some_bind] at h
        exact h
      split
      · next hpm =>
        have := hp m
        rw [hpm] at this
        simp at this
      · rfl
      · next hpm => exact ih m hm

/-- The fueled walk returns `some true` exactly when some strict ancestor
satisfies the predicate (under a dead chain and a total predicate). -/
theorem walkF_true_iff (ctx : List Node) (p : Node → Option Bool)
    (hp : ∀ m, (p m).isSome) :
    ∀ f n, parentIter ctx f n = none →
      (walkF (parentStep ctx) p f n = some true ↔
        ∃ k x, parentIter ctx (k + 1) n = some x ∧ p x = some true) := by
  intro f
  induction f with
  | zero =>
    intro n h
    simp [parentIter] at h
  | succ k ih =>
    intro n h
    simp only [walkF]
    split
    · next hs =>
      constructor
      · intro hco
        simp at hco
      · rintro ⟨j, x, hj, _⟩
        simp only [parentIter, hs, Option.none_bind] at hj
        exact absurd hj (by simp)
    · next m hs =>
      have hm : parentIter ctx k m = none := by
        simp only [parentIter, hs, Option.some_bind] at h
        exact h
      have hiter : ∀ j, parentIter ctx (j + 1) n = parentIter ctx j m := by
        intro j
        simp only [parentIter, hs, Option.some_bind]
      split
      · next hpm =>
        have := hp m
        rw [hpm] at this
        simp at this
      · next hpm =>
        constructor
        · intro _
          exact ⟨0, m, by rw [hiter 0]; rfl, hpm⟩
        · intro _
          rfl
      · next hpm =>
        rw [ih m hm]
        constructor
        · rintro ⟨j, x, hj, hx⟩
          exact ⟨j + 1, x, by rw [hiter (j + 1)]; exact hj, hx⟩
        · rintro ⟨j, x, hj, hx⟩
          rw [hiter j] at hj
          cases j with
          | zero =>
            have hxm : x = m := by
              simp only [parentIter] at hj
              exact (Option.some_inj.mp hj).symm
            rw [hxm] at hx
            rw [hx] at hpm
            simp at hpm
          | succ j => exact ⟨j, x, hj, hx⟩

/-- A self-looping parent step on which the predicate is `some false`
starves the walk for every fuel. -/
theorem walkF_stuck (step : Node → Option Node) (p : Node → Option Bool)
    (n : Node) (hs : step n = some n) (hpn : p n = some false) :
    ∀ f, walkF step p f n = none := by
  intro f
  induction f with
  | zero => rfl
  | succ k ih =>
    simp only [walkF, hs, hpn]
    exact ih

/-- On an acyclic arena, `matchesF` with fuel `ctx.length + 1` completes for
every selector and node. -/
theorem matchesF_isSome_of_acyclic (ctx : List Node) (h : acyclicB ctx = true) :
    ∀ s n, (matchesF ctx (ctx.length + 1) s n).isSome := by
  intro s
  induction s with
  | tag t => intro n; rfl
  | id i => intro n; rfl
  | cls c => intro n; rfl
  | all => intro n; rfl
  | «attribute» a => intro n; rfl
  | attributeValue a v => intro n; rfl
  | attributeValueWhitespacedContains a v => intro n; rfl
  | attributeValueStartsWith a v => intro n; rfl
  | attributeValueEndsWith a v => intro n; rfl
  | attributeValueSubstring a v => intro n; rfl
  | and a b iha ihb =>
    intro n
    simp only [matchesF]
    split
    · next hma =>
      have := iha n
      rw [hma] at this
      simp at this
    · rfl
    · exact ihb n
  | or a b iha ihb =>
    intro n
    simp only [matchesF]
    split
    · next hma =>
      have := iha n
      rw [hma] at this
      simp at this
    · rfl
    · exact ihb n
  | parent a b iha ihb =>
    intro n
    simp only [matchesF]
    split
    · rfl
    · next tg htg =>
      split
      · rfl
      · next pr hpr =>
        split
        · next hma =>
          have := iha pr
          rw [hma] at this
          simp at this
        · rfl
        · exact ihb n
  | descendant a b iha ihb =>
    intro n
    simp only [matchesF]
    split
    · next hmb =>
      have := ihb n
      rw [hmb] at this
      simp at this
    · rfl
    · exact walkF_isSome ctx _ (fun m => iha m) _ n (chainDies ctx h n)

/-- At a non-tag node every selector evaluates to `some` result as soon as
the walk has one unit of fuel, with no condition on the arena. -/
theorem matchesF_isSome_nonTag (ctx : List Node) (f : Nat) (hf : 1 ≤ f)
    (n : Node) (hn : n.asTag = none) :
    ∀ s, (matchesF ctx f s n).isSome := by
  have hsn : parentStep ctx n = none := by
    simp [parentStep, hn]
  intro s
  induction s with
  | tag t => rfl
  | id i => rfl
  | cls c => rfl
  | all => rfl
  | «attribute» a => rfl
  | attributeValue a v => rfl
  | attributeValueWhitespacedContains a v => rfl
  | attributeValueStartsWith a v => rfl
  | attributeValueEndsWith a v => rfl
  | attributeValueSubstring a v => rfl
  | and a b iha ihb =>
    simp only [matchesF]
    split
    · next hma =>
      rw [hma] at iha
      simp at iha
    · rfl
    · exact ihb
  | or a b iha ihb =>
    simp only [matchesF]
    split
    · next hma =>
      rw [hma] at iha
      simp at iha
    · rfl
    · exact ihb
  | parent a b iha ihb =>
    simp only [matchesF]
    split
    · rfl
    · next tg htg =>
      rw [hn] at htg
      exact absurd htg (by simp)
  | descendant a b iha ihb =>
    simp only [matchesF]
    split
    · next hmb =>
      rw [hmb] at ihb
      simp at ihb
    · rfl
    · cases f with
      | zero => exact absurd hf (by simp)
      | succ k =>
        simp only [walkF, hsn]
        rfl

/-- At a non-tag node the ancestor walk exits at once with `some false`. -/
theorem walkF_nonTag (ctx : List Node) (p : Node → Option Bool) (k : Nat)
    (n : Node) (hn : n.asTag = none) :
    walkF (parentStep ctx) p (k + 1) n = some false := by
  have hsn : parentStep ctx n = none := by
    simp [parentStep, hn]
  simp only [walkF, hsn]

/-- The function `check_attribute` is `false` when the node is not a tag, the attribute
is absent, or the attribute is present without a value. -/
theorem check_attribute_false (n : Node) (a v : List Nat)
    (cb : List Nat → List Nat → Bool)
    (h : n.asTag = none ∨ ∃ tg, n.asTag = some tg ∧
      (tg.attributes.get a = none ∨ tg.attributes.get a = some none)) :
    check_attribute n a v cb = false := by
  rcases h with hn | ⟨tg, htg, hget⟩
  · simp [check_attribute, hn]
  · rcases hget with hg | hg <;> simp [check_attribute, htg, hg, Option.join]

/-- Selector `AttributeValue` evaluates to `true` exactly when the attribute is
present with raw bytes whose lossy decoding equals the lossy decoding of
the selector literal. -/
theorem attributeValue_true_iff (ctx : List Node) (f : Nat) (n : Node)
    (a v : List Nat) :
    matchesF ctx f (.attributeValue a v) n = some true ↔
      ∃ tg w, n.asTag = some tg ∧ tg.attributes.get a = some (some w) ∧
        lossyDecode w = lossyDecode v := by
  have hsome : matchesF ctx f (.attributeValue a v) n
      = some (check_attribute n a v (fun x y => x == y)) := rfl
  rw [hsome, Option.some_inj]
  unfold check_attribute
  split
  · next htg =>
    constructor
    · intro hco
      simp at hco
    · rintro ⟨tg, w, htg2, _, _⟩
      rw [htg] at htg2
      exact absurd htg2 (by simp)
  · next t htg =>
    split
    · next hj =>
      constructor
      · intro hco
        simp at hco
      · rintro ⟨tg, w, htg2, hget, _⟩
        rw [htg] at htg2
        have : t = tg := Option.some_inj.mp htg2
        rw [← this] at hget
        rw [hget] at hj
        simp [Option.join] at hj
    · next attr hj =>
      rw [beq_iff_eq]
      constructor
      · intro hdec
        exact ⟨t, attr, htg, Option.join_eq_some.mp hj, hdec⟩
      · rintro ⟨tg, w, htg2, hget, hdec⟩
        rw [htg] at htg2
        have ht : t = tg := Option.some_inj.mp htg2
        rw [← ht] at hget
        rw [hget] at hj
        simp [Option.join] at hj
        rw [← hj]
        exact hdec

/-- The empty list starts every list. -/
theorem isPrefixOf_nil (l : List Nat) : List.isPrefixOf [] l = true := by
  cases l <;> rfl

/-- Every list is a prefix of itself. -/
theorem isPrefixOf_self (l : List Nat) : l.isPrefixOf l = true := by
  induction l with
  | nil => rfl
  | cons a as ih => simp [List.isPrefixOf, ih]

/-- Every string contains itself as a substring. -/
theorem containsSub_self (l : List Nat) : containsSub l l = true := by
  unfold containsSub
  cases l with
  | nil => rfl
  | cons a as =>
    rw [List.tails_cons]
    simp [isPrefixOf_self]

/-- Evaluation of `And` when the left operand is `some false`. -/
theorem matchesF_and_of_false (ctx : List Node) (f : Nat) (a b : Selector)
    (n : Node) (ha : matchesF ctx f a n = some false) :
    matchesF ctx f (.and a b) n = some false := by
  simp only [matchesF, ha]

/-- Evaluation of `And` when the left operand is `some true`. -/
theorem matchesF_and_of_true (ctx : List Node) (f : Nat) (a b : Selector)
    (n : Node) (ha : matchesF ctx f a n = some true) :
    matchesF ctx f (.and a b) n = matchesF ctx f b n := by
  simp only [matchesF, ha]

/-- Evaluation of `Or` when the left operand is `some true`. -/
theorem matchesF_or_of_true (ctx : List Node) (f : Nat) (a b : Selector)
    (n : Node) (ha : matchesF ctx f a n = some true) :
    matchesF ctx f (.or a b) n = some true := by
  simp only [matchesF, ha]

/-- Evaluation of `Or` when the left operand is `some false`. -/
theorem matchesF_or_of_false (ctx : List Node) (f : Nat) (a b : Selector)
    (n : Node) (ha : matchesF ctx f a n = some false) :
    matchesF ctx f (.or a b) n = matchesF ctx f b n := by
  simp only [matchesF, ha]

/-- Evaluation of `Parent` at a non-tag node. -/
theorem matchesF_parent_nonTag (ctx : List Node) (f : Nat) (a b : Selector)
    (n : Node) (hn : n.asTag = none) :
    matchesF ctx f (.parent a b) n = some false := by
  simp only [matchesF, hn]

/-- Evaluation of `Parent` when the parent handle does not resolve. -/
theorem matchesF_parent_noParent (ctx : List Node) (f : Nat) (a b : Selector)
    (n : Node) (tg : HTMLTag) (hn : n.asTag = some tg)
    (hp : parentResolve ctx tg = none) :
    matchesF ctx f (.parent a b) n = some false := by
  simp only [matchesF, hn, hp]

/-- Evaluation of `Parent` with a resolved parent on which the parent
sub-selector is `some false`. -/
theorem matchesF_parent_of_false (ctx : List Node) (f : Nat) (a b : Selector)
    (n : Node) (tg : HTMLTag) (pr : Node) (hn : n.asTag = some tg)
    (hp : parentResolve ctx tg = some pr)
    (ha : matchesF ctx f a pr = some false) :
    matchesF ctx f (.parent a b) n = some false := by
  simp only [matchesF, hn, hp, ha]

/-- Evaluation of `Parent` with a resolved parent on which the parent
sub-selector is `some true`. -/
theorem matchesF_parent_of_true (ctx : List Node) (f : Nat) (a b : Selector)
    (n : Node) (tg : HTMLTag) (pr : Node) (hn : n.asTag = some tg)
    (hp : parentResolve ctx tg = some pr)
    (ha : matchesF ctx f a pr = some true) :
    matchesF ctx f (.parent a b) n = matchesF ctx f b n := by
  simp only [matchesF, hn, hp, ha]

/-- Evaluation of `Descendant` when the target sub-selector is `some false`. -/
theorem matchesF_descendant_of_false (ctx : List Node) (f : Nat)
    (a b : Selector) (n : Node) (hb : matchesF ctx f b n = some false) :
    matchesF ctx f (.descendant a b) n = some false := by
  simp only [matchesF, hb]

/-- Evaluation of `Descendant` when the target sub-selector is `some true`:
the result is the ancestor walk. -/
theorem matchesF_descendant_of_true (ctx : List Node) (f : Nat)
    (a b : Selector) (n : Node) (hb : matchesF ctx f b n = some true) :
    matchesF ctx f (.descendant a b) n =
      walkF (parentStep ctx) (fun m => matchesF ctx f a m) f n := by
  simp only [matchesF, hb]

/-- Evaluation of `Descendant` when the target sub-selector diverges. -/
theorem matchesF_descendant_of_none (ctx : List Node) (f : Nat)
    (a b : Selector) (n : Node) (hb : matchesF ctx f b n = none) :
    matchesF ctx f (.descendant a b) n = none := by
  simp only [matchesF, hb]

/-! Concrete fixtures used by witnesses and counterexamples. -/

/-- Bytes of `div`. -/
def divB : List Nat := [0x64, 0x69, 0x76]

/-- Bytes of `span`. -/
def spanB : List Nat := [0x73, 0x70, 0x61, 0x6E]

/-- Bytes of `card`. -/
def cardB : List Nat := [0x63, 0x61, 0x72, 0x64]

/-- Bytes of `x`. -/
def xB : List Nat := [0x78]

/-- Bytes of `data`. -/
def dataB : List Nat := [0x64, 0x61, 0x74, 0x61]

/-- Bytes of `foo`. -/
def fooB : List Nat := [0x66, 0x6F, 0x6F]

/-- A root `div` tag with `data="foo"`, `id="foo"`, `class="card"`. -/
def tdiv : Node :=
  .tag { name := divB,
         attributes := { raw := [(dataB, some fooB)], id := some fooB,
                         classAttr := some cardB },
         parent := none }

/-- A one-node acyclic arena holding `tdiv`. -/
def ctx1 : List Node := [tdiv]

/-- A `span` tag whose parent handle points at `tdiv` in `ctx1`. -/
def tspan : Node :=
  .tag { name := spanB,
         attributes := { raw := [], id := none, classAttr := none },
         parent := some 0 }

/-- A non-tag (text) node. -/
def textNode : Node := .raw fooB

/-- A tag that is its own parent through the arena `ctxCyc`. -/
def nodeCyc : Node :=
  .tag { name := divB,
         attributes := { raw := [], id := none, classAttr := none },
         parent := some 0 }

/-- A one-node cyclic arena: `nodeCyc` resolves to itself. -/
def ctxCyc : List Node := [nodeCyc]

/-- A root tag whose `data` attribute holds the invalid UTF-8 byte `0xFF`. -/
def nodeFF : Node :=
  .tag { name := divB,
         attributes := { raw := [(dataB, some [0xFF])], id := none,
                         classAttr := none },
         parent := none }

/-- C1: `Descendant(a, t).matches(n)` is `true` iff `t.matches(n)` is `true`
and iterating parent steps from `n` reaches some strict ancestor `x` with
`a.matches(x)` `true`; in particular, when `n` has no parent the result is
`false` regardless of `a` (acyclic arena, canonical fuel). -/
theorem descendant_matches_characterization (a t : Selector) (n : Node)
    (ctx : List Node) (h : acyclicB ctx = true) :
    (matchesF ctx (ctx.length + 1) (.descendant a t) n = some true ↔
      (matchesF ctx (ctx.length + 1) t n = some true ∧
        ∃ k x, parentIter ctx (k + 1) n = some x ∧
          matchesF ctx (ctx.length + 1) a x = some true)) ∧
    (parentStep ctx n = none →
      matchesF ctx (ctx.length + 1) (.descendant a t) n = some false) := by
  have htot := matchesF_isSome_of_acyclic ctx h
  have hwalk := walkF_true_iff ctx (fun m => matchesF ctx (ctx.length + 1) a m)
    (fun m => htot a m) (ctx.length + 1) n (chainDies ctx h n)
  constructor
  · cases hb : matchesF ctx (ctx.length + 1) t n with
    | none =>
      have := htot t n
      rw [hb] at this
      simp at this
    | some bt =>
      cases bt with
      | false =>
        rw [matchesF_descendant_of_false ctx _ a t n hb]
        simp
      | true =>
        rw [matchesF_descendant_of_true ctx _ a t n hb, hwalk]
        simp
  · intro hroot
    cases hb : matchesF ctx (ctx.length + 1) t n with
    | none =>
      have := htot t n
      rw [hb] at this
      simp at this
    | some bt =>
      cases bt with
      | false => exact matchesF_descendant_of_false ctx _ a t n hb
      | true =>
        rw [matchesF_descendant_of_true ctx _ a t n hb]
        simp only [walkF, hroot]

/-- Witness for C1 at a concrete two-node tree. -/
theorem descendant_matches_characterization_witness :
    (matchesF ctx1 (ctx1.length + 1) (.descendant .all .all) tspan = some true ↔
      (matchesF ctx1 (ctx1.length + 1) .all tspan = some true ∧
        ∃ k x, parentIter ctx1 (k + 1) tspan = some x ∧
          matchesF ctx1 (ctx1.length + 1) .all x = some true)) ∧
    (parentStep ctx1 tspan = none →
      matchesF ctx1 (ctx1.length + 1) (.descendant .all .all) tspan = some false) :=
  descendant_matches_characterization .all .all tspan ctx1 (by decide)

/-- C2: `Parent(p, t).matches(n)` is `false` when `n` is not a tag or has no
resolvable parent handle, and otherwise equals the conjunction of
`t.matches(n)` and `p.matches(parent_of(n))` (acyclic arena, canonical
fuel). -/
theorem parent_matches_characterization (p t : Selector) (n : Node)
    (ctx : List Node) (h : acyclicB ctx = true) :
    (n.asTag = none →
      matchesF ctx (ctx.length + 1) (.parent p t) n = some false) ∧
    (∀ tg, n.asTag = some tg → parentResolve ctx tg = none →
      matchesF ctx (ctx.length + 1) (.parent p t) n = some false) ∧
    (∀ tg pr, n.asTag = some tg → parentResolve ctx tg = some pr →
      ∃ bt bp, matchesF ctx (ctx.length + 1) t n = some bt ∧
        matchesF ctx (ctx.length + 1) p pr = some bp ∧
        matchesF ctx (ctx.length + 1) (.parent p t) n = some (bt && bp)) := by
  have htot := matchesF_isSome_of_acyclic ctx h
  refine ⟨fun hn => matchesF_parent_nonTag ctx _ p t n hn,
    fun tg htg hpr => matchesF_parent_noParent ctx _ p t n tg htg hpr,
    fun tg pr htg hpr => ?_⟩
  cases hbp : matchesF ctx (ctx.length + 1) p pr with
  | none =>
    have := htot p pr
    rw [hbp] at this
    simp at this
  | some bp =>
    cases hbt : matchesF ctx (ctx.length + 1) t n with
    | none =>
      have := htot t n
      rw [hbt] at this
      simp at this
    | some bt =>
      refine ⟨bt, bp, rfl, rfl, ?_⟩
      cases bp with
      | false =>
        rw [matchesF_parent_of_false ctx _ p t n tg pr htg hpr hbp]
        simp
      | true =>
        rw [matchesF_parent_of_true ctx _ p t n tg pr htg hpr hbp, hbt]
        simp

/-- Witness for C2: `tspan` has `tdiv` as parent and `Parent(All, All)`
matches it. -/
theorem parent_matches_characterization_witness :
    matchesF ctx1 (ctx1.length + 1) (.parent .all .all) tspan = some true := by
  obtain ⟨bt, bp, hbt, hbp, heq⟩ :=
    (parent_matches_characterization .all .all tspan ctx1 (by decide)).2.2
      { name := spanB, attributes := { raw := [], id := none, classAttr := none },
        parent := some 0 } tdiv rfl rfl
  have hbt2 : bt = true := Option.some_inj.mp (hbt.symm : some bt = some true)
  have hbp2 : bp = true := Option.some_inj.mp (hbp.symm : some bp = some true)
  rw [hbt2, hbp2] at heq
  exact heq

/-- C3 counterexample: on a cyclic parent chain the `Descendant` evaluation
performs no cycle detection and never completes — the parent step revisits
the same node and for every iteration bound the walk is still running, so
no boolean and no fault is ever produced. -/
theorem descendant_cyclic_no_detection :
    parentStep ctxCyc nodeCyc = some nodeCyc ∧
    ¬ ∃ f, (matchesF ctxCyc f (.descendant (.tag xB) .all) nodeCyc).isSome := by
  constructor
  · rfl
  · rintro ⟨f, hf⟩
    have hstuck : matchesF ctxCyc f (.descendant (.tag xB) .all) nodeCyc = none := by
      rw [matchesF_descendant_of_true ctxCyc f (.tag xB) .all nodeCyc rfl]
      exact walkF_stuck (parentStep ctxCyc) _ nodeCyc rfl rfl f
    rw [hstuck] at hf
    simp at hf

/-- C3 amended: when the parent step loops on `n`, the ancestor sub-selector
rejects `n` and the target accepts it, `Descendant` evaluation never
finishes within any fuel (the code loops forever instead of detecting the
revisit). -/
theorem descendant_cyclic_diverges (ctx : List Node) (a t : Selector)
    (n : Node) (f : Nat) (hs : parentStep ctx n = some n)
    (ha : matchesF ctx f a n = some false)
    (ht : matchesF ctx f t n = some true) :
    matchesF ctx f (.descendant a t) n = none := by
  rw [matchesF_descendant_of_true ctx f a t n ht]
  exact walkF_stuck (parentStep ctx) _ n hs ha f

/-- Witness for the amended C3 at the concrete cyclic arena. -/
theorem descendant_cyclic_diverges_witness :
    matchesF ctxCyc 3 (.descendant (.tag xB) .all) nodeCyc = none :=
  descendant_cyclic_diverges ctxCyc (.tag xB) .all nodeCyc 3 rfl rfl rfl

/-- C4: on a finite acyclic arena, `matches` terminates for every selector
and node — fuel `ctx.length + 1` always suffices to produce a boolean. -/
theorem matches_total_on_acyclic (ctx : List Node) (h : acyclicB ctx = true)
    (s : Selector) (n : Node) :
    (matchesF ctx (ctx.length + 1) s n).isSome :=
  matchesF_isSome_of_acyclic ctx h s n

/-- Witness for C4 on a concrete tree and selector. -/
theorem matches_total_on_acyclic_witness :
    (matchesF ctx1 (ctx1.length + 1)
      (.descendant (.cls cardB) (.tag spanB)) tspan).isSome :=
  matches_total_on_acyclic ctx1 (by decide) (.descendant (.cls cardB) (.tag spanB)) tspan

/-- C8: `Or(e, All)` always matches and `And(e, All)` matches exactly when
`e` does (acyclic arena, canonical fuel). -/
theorem combinator_identity_laws (e : Selector) (n : Node) (ctx : List Node)
    (h : acyclicB ctx = true) :
    matchesF ctx (ctx.length + 1) (.or e .all) n = some true ∧
    matchesF ctx (ctx.length + 1) (.and e .all) n
      = matchesF ctx (ctx.length + 1) e n := by
  have htot := matchesF_isSome_of_acyclic ctx h
  cases he : matchesF ctx (ctx.length + 1) e n with
  | none =>
    have := htot e n
    rw [he] at this
    simp at this
  | some b =>
    cases b with
    | true =>
      refine ⟨matchesF_or_of_true ctx _ e .all n he, ?_⟩
      rw [matchesF_and_of_true ctx _ e .all n he]
      rfl
    | false =>
      refine ⟨?_, ?_⟩
      · rw [matchesF_or_of_false ctx _ e .all n he]
        rfl
      · rw [matchesF_and_of_false ctx _ e .all n he]

/-- Witness for C8 at a concrete node and selector. -/
theorem combinator_identity_laws_witness :
    matchesF ctx1 (ctx1.length + 1) (.or (.tag divB) .all) tdiv = some true ∧
    matchesF ctx1 (ctx1.length + 1) (.and (.tag divB) .all) tdiv
      = matchesF ctx1 (ctx1.length + 1) (.tag divB) tdiv :=
  combinator_identity_laws (.tag divB) tdiv ctx1 (by decide)

/-- C10: at a non-tag node both `Descendant` and `Parent` evaluate to
`false` for all sub-selectors, with no condition on the arena: the node
itself must be a tag before any parent handle is consulted. -/
theorem combinators_false_on_nonTag (a t : Selector) (n : Node)
    (ctx : List Node) (f : Nat) (hf : 1 ≤ f) (hn : n.asTag = none) :
    matchesF ctx f (.descendant a t) n = some false ∧
    matchesF ctx f (.parent a t) n = some false := by
  constructor
  · cases hb : matchesF ctx f t n with
    | none =>
      have := matchesF_isSome_nonTag ctx f hf n hn t
      rw [hb] at this
      simp at this
    | some bt =>
      cases bt with
      | false => exact matchesF_descendant_of_false ctx f a t n hb
      | true =>
        rw [matchesF_descendant_of_true ctx f a t n hb]
        cases f with
        | zero => exact absurd hf (by simp)
        | succ k => exact walkF_nonTag ctx _ k n hn
  · exact matchesF_parent_nonTag ctx f a t n hn

/-- Witness for C10: a text node with target `All`. -/
theorem combinators_false_on_nonTag_witness :
    matchesF ctx1 1 (.descendant .all .all) textNode = some false ∧
    matchesF ctx1 1 (.parent .all .all) textNode = some false :=
  combinators_false_on_nonTag .all .all textNode ctx1 1 (by decide) rfl

/-- C5: every `AttributeValue*` selector evaluates to `false` — not an
error — when the node is not a tag, the attribute is absent, or the
attribute is present without a value. -/
theorem attribute_value_variants_absent_false (n : Node) (ctx : List Node)
    (f : Nat) (a v : List Nat)
    (h : n.asTag = none ∨ ∃ tg, n.asTag = some tg ∧
      (tg.attributes.get a = none ∨ tg.attributes.get a = some none)) :
    matchesF ctx f (.attributeValue a v) n = some false ∧
    matchesF ctx f (.attributeValueStartsWith a v) n = some false ∧
    matchesF ctx f (.attributeValueEndsWith a v) n = some false ∧
    matchesF ctx f (.attributeValueSubstring a v) n = some false ∧
    matchesF ctx f (.attributeValueWhitespacedContains a v) n = some false := by
  refine ⟨?_, ?_, ?_, ?_, ?_⟩ <;>
    exact congrArg some (check_attribute_false n a v _ h)

/-- Witness for C5 at a text node. -/
theorem attribute_value_variants_absent_false_witness :
    matchesF ctx1 1 (.attributeValue dataB fooB) textNode = some false ∧
    matchesF ctx1 1 (.attributeValueStartsWith dataB fooB) textNode = some false ∧
    matchesF ctx1 1 (.attributeValueEndsWith dataB fooB) textNode = some false ∧
    matchesF ctx1 1 (.attributeValueSubstring dataB fooB) textNode = some false ∧
    matchesF ctx1 1 (.attributeValueWhitespacedContains dataB fooB) textNode
      = some false :=
  attribute_value_variants_absent_false textNode ctx1 1 dataB fooB (Or.inl rfl)

/-- C6: `AttributeValue` compares the lossy UTF-8 decodings of the stored
bytes and the selector literal, so it holds exactly when the attribute is
present with bytes decoding to the literal's decoding — and two distinct
invalid byte sequences decoding to the same replacement-character string
are treated as equal. -/
theorem attribute_value_lossy_comparison :
    (∀ (n : Node) (ctx : List Node) (f : Nat) (a v : List Nat),
      matchesF ctx f (.attributeValue a v) n = some true ↔
        ∃ tg w, n.asTag = some tg ∧ tg.attributes.get a = some (some w) ∧
          lossyDecode w = lossyDecode v) ∧
    (([0xFF] : List Nat) ≠ [0xC0] ∧
      lossyDecode [0xFF] = [0xFFFD] ∧ lossyDecode [0xC0] = [0xFFFD] ∧
      matchesF [] 1 (.attributeValue dataB [0xC0]) nodeFF = some true) := by
  refine ⟨fun n ctx f a v => attributeValue_true_iff ctx f n a v, ?_, ?_, ?_, ?_⟩
  · decide
  · rfl
  · rfl
  · rfl

/-- C7: `AttributeValueStartsWith(name, "")` is `true` whenever the
attribute is present with a value, and `AttributeValue(name, v)` implies
`AttributeValueSubstring(name, v)`. -/
theorem attribute_relation_consistency (n : Node) (ctx : List Node) (f : Nat)
    (a v : List Nat) :
    (∀ tg w, n.asTag = some tg → tg.attributes.get a = some (some w) →
      matchesF ctx f (.attributeValueStartsWith a []) n = some true) ∧
    (matchesF ctx f (.attributeValue a v) n = some true →
      matchesF ctx f (.attributeValueSubstring a v) n = some true) := by
  constructor
  · intro tg w htg hget
    show some (check_attribute n a [] _) = some true
    simp only [check_attribute, htg, hget, Option.join, Option.some_inj]
    exact isPrefixOf_nil (lossyDecode w)
  · intro hv
    rw [attributeValue_true_iff] at hv
    obtain ⟨tg, w, htg, hget, hdec⟩ := hv
    show some (check_attribute n a v _) = some true
    simp [check_attribute, htg, hget, Option.join, hdec, containsSub_self]

/-- Witness for C7 on the `data="foo"` attribute of `tdiv`. -/
theorem attribute_relation_consistency_witness :
    matchesF ctx1 1 (.attributeValueStartsWith dataB []) tdiv = some true ∧
    matchesF ctx1 1 (.attributeValueSubstring dataB fooB) tdiv = some true :=
  ⟨(attribute_relation_consistency tdiv ctx1 1 dataB fooB).1
      { name := divB,
        attributes := { raw := [(dataB, some fooB)], id := some fooB,
                        classAttr := some cardB },
        parent := none } fooB rfl rfl,
   (attribute_relation_consistency tdiv ctx1 1 dataB fooB).2 rfl⟩

/-! The `ParserOptions` bit-flag configuration of `src/parser/options.rs`. -/

/-- Source `flags::TRACK_IDS`. -/
def TRACK_IDS : Nat := 1

/-- Source `flags::TRACK_CLASSES`. -/
def TRACK_CLASSES : Nat := 2

/-- Source `ParserOptions(u8)`: the packed flag byte (only values reachable from
the builder API occur in the program). -/
structure ParserOptions where
  val : Nat

/-- Source `ParserOptions::default()`: no flags set. -/
def ParserOptions.default : ParserOptions := ⟨0⟩

/-- Source `ParserOptions::new()`. -/
def ParserOptions.new : ParserOptions := ParserOptions.default

/-- Source `set_flag`: bitwise-or the flag into the byte. -/
def ParserOptions.set_flag (o : ParserOptions) (flag : Nat) : ParserOptions :=
  ⟨o.val ||| flag⟩

/-- Source `has_flag`: the flag's bits intersect the byte. -/
def ParserOptions.has_flag (o : ParserOptions) (flag : Nat) : Bool :=
  o.val &&& flag != 0

/-- Source `track_ids()`. -/
def ParserOptions.track_ids (o : ParserOptions) : ParserOptions :=
  o.set_flag TRACK_IDS

/-- Source `track_classes()`. -/
def ParserOptions.track_classes (o : ParserOptions) : ParserOptions :=
  o.set_flag TRACK_CLASSES

/-- Source `is_tracking_ids()`. -/
def ParserOptions.is_tracking_ids (o : ParserOptions) : Bool :=
  o.has_flag TRACK_IDS

/-- Source `is_tracking_classes()`. -/
def ParserOptions.is_tracking_classes (o : ParserOptions) : Bool :=
  o.has_flag TRACK_CLASSES

/-- Source `is_tracking()`: any bit set (`self.0 > 0`). -/
def ParserOptions.is_tracking (o : ParserOptions) : Bool :=
  decide (o.val > 0)

/-- Configurations constructible through the public builder API
(`new`, `track_ids`, `track_classes`): exactly the values a caller of the
library can hold. -/
inductive ParserOptions.Reachable : ParserOptions → Prop
  | base : ParserOptions.Reachable ParserOptions.new
  | ids : ∀ {o : ParserOptions}, ParserOptions.Reachable o →
      ParserOptions.Reachable o.track_ids
  | classes : ∀ {o : ParserOptions}, ParserOptions.Reachable o →
      ParserOptions.Reachable o.track_classes

/-- Reachable configurations use only the two flag bits. -/
theorem ParserOptions.Reachable.val_lt {o : ParserOptions}
    (h : o.Reachable) : o.val < 4 := by
  induction h with
  | base => decide
  | ids h ih =>
    next o2 =>
      obtain ⟨v⟩ := o2
      have hv : v < 4 := ih
      interval_cases v <;> decide
  | classes h ih =>
    next o2 =>
      obtain ⟨v⟩ := o2
      have hv : v < 4 := ih
      interval_cases v <;> decide

/-- C9: `new()/default()` carry no flags and are not tracking; the builder
setters set exactly their own flag and never clear the other; after
`track_ids()` alone only the id flag is set; and `is_tracking()` is `true`
iff at least one flag is set, over all reachable configurations. -/
theorem parser_options_contract :
    (ParserOptions.new = ParserOptions.default ∧
      ParserOptions.new.is_tracking = false ∧
      ParserOptions.new.is_tracking_ids = false ∧
      ParserOptions.new.is_tracking_classes = false) ∧
    (∀ o : ParserOptions, o.Reachable →
      (o.track_ids.is_tracking_ids = true ∧
        o.track_ids.is_tracking_classes = o.is_tracking_classes ∧
        o.track_classes.is_tracking_classes = true ∧
        o.track_classes.is_tracking_ids = o.is_tracking_ids)) ∧
    (ParserOptions.new.track_ids.is_tracking_ids = true ∧
      ParserOptions.new.track_ids.is_tracking_classes = false) ∧
    (∀ o : ParserOptions, o.Reachable →
      o.is_tracking = (o.is_tracking_ids || o.is_tracking_classes)) := by
  refine ⟨⟨rfl, rfl, rfl, rfl⟩, ?_, ⟨rfl, rfl⟩, ?_⟩
  · intro o h
    have hv4 : o.val < 4 := h.val_lt
    obtain ⟨v⟩ := o
    have hv : v < 4 := hv4
    interval_cases v <;> exact ⟨rfl, rfl, rfl, rfl⟩
  · intro o h
    have hv4 : o.val < 4 := h.val_lt
    obtain ⟨v⟩ := o
    have hv : v < 4 := hv4
    interval_cases v <;> rfl

/-- Witness for C9 at the concrete configuration `new().track_ids()`. -/
theorem parser_options_contract_witness :
    ParserOptions.new.track_ids.is_tracking =
      (ParserOptions.new.track_ids.is_tracking_ids ||
        ParserOptions.new.track_ids.is_tracking_classes) :=
  parser_options_contract.2.2.2 ParserOptions.new.track_ids
    (ParserOptions.Reachable.ids ParserOptions.Reachable.base)

end TL
